import Mathlib

/-!
Verification of the Druid metadata extractor
(`databuilder/extractor/druid_metadata_extractor.py`).

The extractor pulls flat rows (dicts with keys `schema`, `name`, `col_name`,
`col_type`, `col_sort_order`) from an underlying SQLAlchemy extractor, groups
maximal contiguous runs of rows sharing the same `(schema, name)` key with
`itertools.groupby`, and yields one `TableMetadata` per run.

Shallow embedding conventions:
* a Python dict row is an association list `Row := List (String × String)`;
  `row[k]` is `lookup row k : Option String`, `none` modelling a `KeyError`;
* the lazy generator `_get_extract_iter` is modelled as a function from the
  finite list of raw rows to the pair `(entities emitted, raisedKeyError?)`:
  the `Bool` is `true` when the generator terminates by raising a lookup
  failure (after having yielded the entities of the complete earlier runs);
* the stateful facade `extract()` is a step function on an explicit state
  record; the underlying SQLAlchemy extractor's successive return values are
  a list `List (Option Row)` (`none` = Python `None`).
-/

/-- A Python dict row: association list from field name to string value. -/
abbrev Row := List (String × String)

/-- Dict access `row[k]` as a total function: `none` models a Python `KeyError`. -/
def lookup (row : Row) (k : String) : Option String :=
  (row.find? (fun p => p.fst == k)).map Prod.snd

/-- The namedtuple `TableKey` with fields `schema` and `table_name`. -/
structure TableKey where
  schema : String
  table_name : String
deriving DecidableEq, Repr

/-- The fields of `databuilder.models.table_metadata.ColumnMetadata` that this
extractor sets (`name`, `description`, `col_type`, `sort_order`).  The sort
order is kept as the raw string value of the row, the extractor passes it
through unchanged. -/
structure ColumnMetadata where
  name : String
  description : String
  col_type : String
  sort_order : String
deriving DecidableEq, Repr

/-- The fields of `TableMetadata` that this extractor sets. -/
structure TableMetadata where
  database : String
  cluster : String
  schema : String
  name : String
  description : String
  columns : List ColumnMetadata
deriving DecidableEq, Repr

/-- The key function `_get_table_key(row)`: builds `TableKey` from the row fields `schema` and `name`
when the row is truthy, `None` when it is falsy (empty dict).  The outer
`Option` is `none` when a `KeyError` is raised by `row['schema']` /
`row['name']`. -/
def get_table_key (row : Row) : Option (Option TableKey) :=
  if row.isEmpty then some none
  else
    match lookup row "schema", lookup row "name" with
    | some s, some n => some (some ⟨s, n⟩)
    | _, _ => none

/-- The column built in the body of the inner `for` loop:
`ColumnMetadata(name=row['col_name'], description='', col_type=row['col_type'],
sort_order=row['col_sort_order'])`; `none` models a `KeyError`. -/
def mkColumn (row : Row) : Option ColumnMetadata :=
  match lookup row "col_name", lookup row "col_type", lookup row "col_sort_order" with
  | some n, some t, some s => some ⟨n, "", t, s⟩
  | _, _, _ => none

/-- The entity yielded after a group is exhausted:
`TableMetadata(database='druid', cluster=self._cluster, schema=last_row['schema'],
name=last_row['name'], description='', columns=columns)`;
`none` models a `KeyError` on `last_row`. -/
def mkEntity (cluster : String) (last : Row) (cols : List ColumnMetadata) :
    Option TableMetadata :=
  match lookup last "schema", lookup last "name" with
  | some s, some n => some ⟨"druid", cluster, s, n, "", cols⟩
  | _, _ => none

/-- The main loop of `_get_extract_iter` after the first row of the current
group has been consumed: `k` is the current group key (as computed by
`_get_table_key`), `last` the most recently consumed row, `cols` the columns
accumulated so far for the current group.  Returns the entities yielded and
whether the generator ends by raising a `KeyError` (`true`) or by normal
exhaustion (`false`).  At a group boundary the current entity is yielded
before the first column of the next group is built, mirroring the order in
which the Python generator produces values and raises. -/
def extractIterGo (cluster : String) (k : Option TableKey) (last : Row)
    (cols : List ColumnMetadata) : List Row → List TableMetadata × Bool
  | [] =>
    match mkEntity cluster last cols with
    | some t => ([t], false)
    | none => ([], true)
  | r :: rest =>
    match get_table_key r with
    | none => ([], true)
    | some k' =>
      if k' = k then
        match mkColumn r with
        | none => ([], true)
        | some c => extractIterGo cluster k r (cols ++ [c]) rest
      else
        match mkEntity cluster last cols with
        | none => ([], true)
        | some t =>
          match mkColumn r with
          | none => ([t], true)
          | some c =>
            let res := extractIterGo cluster k' r [c] rest
            (t :: res.fst, res.snd)

/-- The generator `_get_extract_iter` on the materialised list of raw rows: groups maximal
contiguous runs of rows sharing a `_get_table_key` value and yields one
`TableMetadata` per run. -/
def get_extract_iter (cluster : String) (rows : List Row) :
    List TableMetadata × Bool :=
  match rows with
  | [] => ([], false)
  | r :: rest =>
    match get_table_key r with
    | none => ([], true)
    | some k =>
      match mkColumn r with
      | none => ([], true)
      | some c => extractIterGo cluster k r [c] rest

/-- The generator `_get_raw_extract_iter`: repeatedly calls the underlying extractor and
yields rows while they are truthy; `results` is the list of successive return
values of `self._alchemy_extractor.extract()` (`none` = Python `None`; an
exhausted list behaves like `None` forever). -/
def get_raw_extract_iter : List (Option Row) → List Row
  | [] => []
  | none :: _ => []
  | some row :: rest =>
    if row.isEmpty then [] else row :: get_raw_extract_iter rest

/-- The mutable state of a `DruidMetadataExtractor` after `init`:
the resolved cluster label, the underlying extractor's stream of results,
and `self._extract_iter` (`none` until the first `extract()` call; afterwards
the suffix of the entity stream not yet returned, together with the pending
`KeyError` flag). -/
structure DruidState where
  cluster : String
  results : List (Option Row)
  extract_iter : Option (List TableMetadata × Bool)
deriving Repr

/-- Observable outcome of one `extract()` call: a returned value
(`value none` is the Python `None` sentinel) or a propagated exception. -/
inductive ExtractResult where
  | value : Option TableMetadata → ExtractResult
  | raised : ExtractResult
deriving DecidableEq, Repr

/-- The facade `extract()`: lazily constructs `self._extract_iter` on first call
(`if not self._extract_iter`), then returns `next(...)`, mapping
`StopIteration` to the `None` sentinel; a `KeyError` raised by the generator
propagates (only `StopIteration` is caught), after which the generator is
finished and behaves as exhausted. -/
def extract (s : DruidState) : ExtractResult × DruidState :=
  let it :=
    match s.extract_iter with
    | none => get_extract_iter s.cluster (get_raw_extract_iter s.results)
    | some it => it
  match it with
  | ([], false) => (.value none, { s with extract_iter := some ([], false) })
  | ([], true) => (.raised, { s with extract_iter := some ([], false) })
  | (t :: ts, e) => (.value (some t), { s with extract_iter := some (ts, e) })

/-! ### Configuration (`init`) -/

/-- A pyhocon config is modelled as a partial map from key to string value. -/
abbrev Config := String → Option String

/-- Lookup in a literal key/value list (`ConfigFactory.from_dict`). -/
def configOf (kvs : List (String × String)) : Config :=
  fun k => (kvs.find? (fun p => p.fst == k)).map Prod.snd

/-- The default configuration: `where_clause_suffix` maps to a single space and `cluster` to `gold`. -/
def DEFAULT_CONFIG : Config :=
  configOf [("where_clause_suffix", " "), ("cluster", "gold")]

/-- Fallback merge `conf.with_fallback(fb)`: the supplied value wins, else the fallback. -/
def with_fallback (conf fb : Config) : Config :=
  fun k => (conf k).orElse (fun _ => fb k)

/-- The part of the dedented SQL template before `{where_clause_suffix}`
(including the newline that precedes the placeholder's line). -/
def sqlHead : String :=
  "\nSELECT\nTABLE_SCHEMA as schema,\nTABLE_NAME as name,\nCOLUMN_NAME as col_name,\nDATA_TYPE as col_type,\nORDINAL_POSITION as col_sort_order\nFROM INFORMATION_SCHEMA.COLUMNS\n"

/-- The part of the dedented SQL template after `{where_clause_suffix}`. -/
def sqlTail : String :=
  "\norder by TABLE_SCHEMA, TABLE_NAME, CAST(ORDINAL_POSITION AS int)\n"

/-- Formatting the template with the suffix: the template has a single
placeholder, so formatting is concatenation around the interpolated suffix. -/
def SQL_STATEMENT (where_clause_suffix : String) : String :=
  sqlHead ++ where_clause_suffix ++ sqlTail

/-- The cluster label resolved by `init`:
`'{}'.format(conf.get_string(CLUSTER_KEY))` after `conf.with_fallback(DEFAULT_CONFIG)`
(`'{}'.format` is the identity on strings; `get_string` raises when the key is
absent, hence the `Option`). -/
def init_cluster (conf : Config) : Option String :=
  with_fallback conf DEFAULT_CONFIG "cluster"

/-- The SQL statement resolved by `init`:
`SQL_STATEMENT.format(where_clause_suffix=conf.get_string(WHERE_CLAUSE_SUFFIX_KEY, default=''))`
after `conf.with_fallback(DEFAULT_CONFIG)`; the `get_string` default applies
only when the key is absent even after the fallback merge. -/
def init_sql_stmt (conf : Config) : String :=
  SQL_STATEMENT ((with_fallback conf DEFAULT_CONFIG "where_clause_suffix").getD "")

/-! ### Spec-side notions: well-formed rows, runs, run count -/

/-- A row carrying all five fields the extractor reads. -/
def WF (r : Row) : Bool :=
  (lookup r "schema").isSome && (lookup r "name").isSome &&
  (lookup r "col_name").isSome && (lookup r "col_type").isSome &&
  (lookup r "col_sort_order").isSome

/-- Field access defaulting to the empty string (total on well-formed rows). -/
def sget (r : Row) (k : String) : String :=
  (lookup r k).getD ""

/-- The `(schema, table_name)` grouping key of a row, when both fields exist. -/
def specKey (r : Row) : Option (String × String) :=
  match lookup r "schema", lookup r "name" with
  | some s, some n => some (s, n)
  | _, _ => none

/-- The column a well-formed row contributes. -/
def colOf (r : Row) : ColumnMetadata :=
  ⟨sget r "col_name", "", sget r "col_type", sget r "col_sort_order"⟩

/-- The entity a nonempty run of rows yields: last row's schema and name,
one column per row in order. -/
def runEntity (cluster : String) (run : List Row) : TableMetadata :=
  ⟨"druid", cluster, sget (run.getLastD []) "schema", sget (run.getLastD []) "name",
    "", run.map colOf⟩

/-- The entity the current group yields when `last`/`cols` is the state so far
and `run` the rows still to be absorbed into the group. -/
def runEntityFrom (cluster : String) (last : Row) (cols : List ColumnMetadata)
    (run : List Row) : TableMetadata :=
  ⟨"druid", cluster, sget (run.getLastD last) "schema", sget (run.getLastD last) "name",
    "", cols ++ run.map colOf⟩

/-- Maximal contiguous runs of a list under a key function: each run is a
nonempty block of adjacent elements sharing the key of its first element. -/
def chunkRuns {α κ : Type} [DecidableEq κ] (key : α → κ) : List α → List (List α)
  | [] => []
  | r :: rest =>
    (r :: rest.takeWhile (fun x => key x = key r)) ::
      chunkRuns key (rest.dropWhile (fun x => key x = key r))
termination_by l => l.length
decreasing_by
  simp only [List.length_cons]
  exact Nat.lt_succ_of_le ((List.dropWhile_sublist _).length_le)

/-- The number of maximal contiguous runs of equal adjacent values. -/
def countRuns {κ : Type} [DecidableEq κ] : List κ → Nat
  | [] => 0
  | [_] => 1
  | a :: b :: rest => (if a = b then 0 else 1) + countRuns (b :: rest)

/-- Sample rows used to instantiate the universally quantified theorems. -/
def row_s1_t1_a : Row :=
  [("schema", "s1"), ("name", "t1"), ("col_name", "a"), ("col_type", "STRING"),
   ("col_sort_order", "1")]

def row_s1_t1_b : Row :=
  [("schema", "s1"), ("name", "t1"), ("col_name", "b"), ("col_type", "LONG"),
   ("col_sort_order", "2")]

def row_s1_t2_c : Row :=
  [("schema", "s1"), ("name", "t2"), ("col_name", "c"), ("col_type", "STRING"),
   ("col_sort_order", "1")]

def sampleRows : List Row := [row_s1_t1_a, row_s1_t1_b, row_s1_t2_c]

/-- A malformed row: the `col_sort_order` field is missing. -/
def badRow : Row :=
  [("schema", "s1"), ("name", "t1"), ("col_name", "a"), ("col_type", "STRING")]

/-- A caller-supplied configuration overriding the cluster label. -/
def sampleConf : Config := configOf [("cluster", "prod")]

/-- A caller-supplied configuration leaving every key unset. -/
def emptyConf : Config := configOf []

/-- The first entity the extractor emits on `sampleRows` with cluster
`"gold"`. -/
def tEntity1 : TableMetadata :=
  ⟨"druid", "gold", "s1", "t1", "",
    [⟨"a", "", "STRING", "1"⟩, ⟨"b", "", "LONG", "2"⟩]⟩

/-! ### Helper lemmas -/

lemma lookup_eq_sget {r : Row} {k : String} (h : (lookup r k).isSome = true) :
    lookup r k = some (sget r k) := by
  cases hl : lookup r k with
  | none => rw [hl] at h; simp at h
  | some v => simp [sget, hl]

lemma lookup_nil (k : String) : lookup ([] : Row) k = none := rfl

lemma WF_isEmpty_false {r : Row} (h : WF r = true) : r.isEmpty = false := by
  cases r with
  | nil => simp [WF, lookup] at h
  | cons p t => rfl

lemma WF_fields {r : Row} (h : WF r = true) :
    (lookup r "schema").isSome = true ∧ (lookup r "name").isSome = true ∧
    (lookup r "col_name").isSome = true ∧ (lookup r "col_type").isSome = true ∧
    (lookup r "col_sort_order").isSome = true := by
  simp only [WF, Bool.and_eq_true] at h
  exact ⟨h.1.1.1.1, h.1.1.1.2, h.1.1.2, h.1.2, h.2⟩

lemma get_table_key_of_WF {r : Row} (h : WF r = true) :
    get_table_key r = some (some ⟨sget r "schema", sget r "name"⟩) := by
  obtain ⟨h1, h2, -, -, -⟩ := WF_fields h
  simp [get_table_key, WF_isEmpty_false h, lookup_eq_sget h1, lookup_eq_sget h2]

lemma specKey_of_WF {r : Row} (h : WF r = true) :
    specKey r = some (sget r "schema", sget r "name") := by
  obtain ⟨h1, h2, -, -, -⟩ := WF_fields h
  simp [specKey, lookup_eq_sget h1, lookup_eq_sget h2]

lemma mkColumn_of_WF {r : Row} (h : WF r = true) : mkColumn r = some (colOf r) := by
  obtain ⟨-, -, h3, h4, h5⟩ := WF_fields h
  simp [mkColumn, colOf, lookup_eq_sget h3, lookup_eq_sget h4, lookup_eq_sget h5]

lemma mkEntity_of_WF (c : String) {last : Row} (cols : List ColumnMetadata)
    (h : WF last = true) :
    mkEntity c last cols =
      some ⟨"druid", c, sget last "schema", sget last "name", "", cols⟩ := by
  obtain ⟨h1, h2, -, -, -⟩ := WF_fields h
  simp [mkEntity, lookup_eq_sget h1, lookup_eq_sget h2]

lemma specKey_eq_iff_fields {a b : Row} (ha : WF a = true) (hb : WF b = true) :
    specKey a = specKey b ↔
      sget a "schema" = sget b "schema" ∧ sget a "name" = sget b "name" := by
  rw [specKey_of_WF ha, specKey_of_WF hb]
  simp [Prod.ext_iff]

lemma WF_false_cases {r : Row} (h : WF r = false) :
    get_table_key r = none ∨ mkColumn r = none := by
  by_cases he : r.isEmpty
  · right
    have : r = [] := by cases r with | nil => rfl | cons p t => simp at he
    subst this
    rfl
  · simp only [WF, Bool.and_eq_true, Bool.not_eq_true] at h
    cases h1 : lookup r "schema" with
    | none => left; simp [get_table_key, he, h1]
    | some s =>
      cases h2 : lookup r "name" with
      | none => left; simp [get_table_key, he, h1, h2]
      | some n =>
        right
        cases h3 : lookup r "col_name" with
        | none => simp [mkColumn, h3]
        | some x =>
          cases h4 : lookup r "col_type" with
          | none => simp [mkColumn, h3, h4]
          | some y =>
            cases h5 : lookup r "col_sort_order" with
            | none => simp [mkColumn, h3, h4, h5]
            | some z => rw [h1, h2, h3, h4, h5] at h; simp at h

lemma getLastD_mem {α : Type} {l : List α} (d : α) (h : l ≠ []) :
    l.getLastD d ∈ l := by
  induction l generalizing d with
  | nil => exact absurd rfl h
  | cons x t ih =>
    rw [List.getLastD_cons]
    cases t with
    | nil => simp
    | cons y u => exact List.mem_cons_of_mem x (ih y (by simp))

lemma takeWhile_all_pos {α : Type} {p : α → Bool} {l : List α}
    (h : ∀ x ∈ l, p x = true) : l.takeWhile p = l := by
  induction l with
  | nil => rfl
  | cons x t ih =>
    rw [List.takeWhile_cons_of_pos (h x (List.mem_cons_self x t))]
    rw [ih (fun y hy => h y (List.mem_cons_of_mem x hy))]

lemma dropWhile_all_pos {α : Type} {p : α → Bool} {l : List α}
    (h : ∀ x ∈ l, p x = true) : l.dropWhile p = [] := by
  induction l with
  | nil => rfl
  | cons x t ih =>
    rw [List.dropWhile_cons_of_pos (h x (List.mem_cons_self x t))]
    exact ih (fun y hy => h y (List.mem_cons_of_mem x hy))

lemma takeWhile_head_neg {α : Type} {p : α → Bool} {l : List α}
    (h : ∀ x, l.head? = some x → p x = false) : l.takeWhile p = [] := by
  cases l with
  | nil => rfl
  | cons x t =>
    have := h x rfl
    rw [List.takeWhile_cons_of_neg (by simp [this])]

lemma dropWhile_head_neg {α : Type} {p : α → Bool} {l : List α}
    (h : ∀ x, l.head? = some x → p x = false) : l.dropWhile p = l := by
  cases l with
  | nil => rfl
  | cons x t =>
    have := h x rfl
    rw [List.dropWhile_cons_of_neg (by simp [this])]

lemma takeWhile_append_boundary {α : Type} {p : α → Bool} {t rest : List α}
    (ht : ∀ x ∈ t, p x = true) (hr : ∀ x, rest.head? = some x → p x = false) :
    (t ++ rest).takeWhile p = t := by
  induction t with
  | nil => simpa using takeWhile_head_neg hr
  | cons x u ih =>
    rw [List.cons_append,
      List.takeWhile_cons_of_pos (ht x (List.mem_cons_self x u))]
    rw [ih (fun y hy => ht y (List.mem_cons_of_mem x hy))]

lemma dropWhile_append_boundary {α : Type} {p : α → Bool} {t rest : List α}
    (ht : ∀ x ∈ t, p x = true) (hr : ∀ x, rest.head? = some x → p x = false) :
    (t ++ rest).dropWhile p = rest := by
  induction t with
  | nil => simpa using dropWhile_head_neg hr
  | cons x u ih =>
    rw [List.cons_append,
      List.dropWhile_cons_of_pos (ht x (List.mem_cons_self x u))]
    exact ih (fun y hy => ht y (List.mem_cons_of_mem x hy))

lemma takeWhile_append_all_neg {α : Type} {p : α → Bool} {t rest : List α}
    (hr : ∀ x ∈ rest, p x = false) :
    (t ++ rest).takeWhile p = t.takeWhile p := by
  induction t with
  | nil =>
    simpa using takeWhile_head_neg (fun x hx => hr x (List.mem_of_mem_head? hx))
  | cons x u ih =>
    by_cases hx : p x = true
    · rw [List.cons_append, List.takeWhile_cons_of_pos hx,
        List.takeWhile_cons_of_pos hx, ih]
    · rw [List.cons_append, List.takeWhile_cons_of_neg (by simp [hx]),
        List.takeWhile_cons_of_neg (by simp [hx])]

lemma dropWhile_append_all_neg {α : Type} {p : α → Bool} {t rest : List α}
    (hr : ∀ x ∈ rest, p x = false) :
    (t ++ rest).dropWhile p = t.dropWhile p ++ rest := by
  induction t with
  | nil =>
    simpa using dropWhile_head_neg (fun x hx => hr x (List.mem_of_mem_head? hx))
  | cons x u ih =>
    by_cases hx : p x = true
    · rw [List.cons_append, List.dropWhile_cons_of_pos hx,
        List.dropWhile_cons_of_pos hx, ih]
    · rw [List.cons_append, List.dropWhile_cons_of_neg (by simp [hx]),
        List.dropWhile_cons_of_neg (by simp [hx]), List.cons_append]

lemma chunkRuns_nil {α κ : Type} [DecidableEq κ] (key : α → κ) :
    chunkRuns key ([] : List α) = [] := by
  rw [chunkRuns]

lemma chunkRuns_cons {α κ : Type} [DecidableEq κ] (key : α → κ) (r : α)
    (rest : List α) :
    chunkRuns key (r :: rest) =
      (r :: rest.takeWhile (fun x => key x = key r)) ::
        chunkRuns key (rest.dropWhile (fun x => key x = key r)) := by
  rw [chunkRuns]

lemma chunkRuns_length_aux {α κ : Type} [DecidableEq κ] (key : α → κ) :
    ∀ (n : Nat) (l : List α), l.length ≤ n →
      (chunkRuns key l).length = countRuns (l.map key) := by
  intro n
  induction n with
  | zero =>
    intro l hl
    have h0 : l = [] := List.length_eq_zero.mp (Nat.le_zero.mp hl)
    subst h0
    rw [chunkRuns_nil]
    rfl
  | succ n ih =>
    intro l hl
    cases l with
    | nil => rw [chunkRuns_nil]; rfl
    | cons r rest =>
      rw [chunkRuns_cons]
      have hcount : countRuns ((r :: rest).map key) =
          1 + countRuns ((rest.dropWhile (fun x => key x = key r)).map key) := by
        clear hl ih
        induction rest generalizing r with
        | nil => rfl
        | cons x t ihr =>
          by_cases h : key x = key r
          · have hd : (x :: t).dropWhile (fun y => key y = key r) =
                t.dropWhile (fun y => key y = key r) :=
              List.dropWhile_cons_of_pos (by simp [h])
            have hp : t.dropWhile (fun y => key y = key r) =
                t.dropWhile (fun y => key y = key x) := by
              simp only [← h]
            rw [hd, hp]
            have hstep : countRuns ((r :: x :: t).map key) =
                countRuns ((x :: t).map key) := by
              simp only [List.map_cons, countRuns, h.symm, if_pos]
              omega
            rw [hstep, ihr x]
          · have hd : (x :: t).dropWhile (fun y => key y = key r) = x :: t :=
              List.dropWhile_cons_of_neg (by simp [h])
            rw [hd]
            have hne : key r ≠ key x := fun hrx => h hrx.symm
            simp only [List.map_cons, countRuns, if_neg hne]
      rw [hcount]
      have hlen : (rest.dropWhile (fun x => key x = key r)).length ≤ n := by
        have h1 : (rest.dropWhile (fun x => key x = key r)).length ≤ rest.length :=
          (List.dropWhile_sublist _).length_le
        simp only [List.length_cons] at hl
        omega
      rw [List.length_cons, ih _ hlen]
      omega

lemma chunkRuns_length {α κ : Type} [DecidableEq κ] (key : α → κ) (l : List α) :
    (chunkRuns key l).length = countRuns (l.map key) :=
  chunkRuns_length_aux key l.length l (Nat.le_refl _)

lemma chunkRuns_join_aux {α κ : Type} [DecidableEq κ] (key : α → κ) :
    ∀ (n : Nat) (l : List α), l.length ≤ n → (chunkRuns key l).flatten = l := by
  intro n
  induction n with
  | zero =>
    intro l hl
    have h0 : l = [] := List.length_eq_zero.mp (Nat.le_zero.mp hl)
    subst h0
    rw [chunkRuns_nil]
    rfl
  | succ n ih =>
    intro l hl
    cases l with
    | nil => rw [chunkRuns_nil]; rfl
    | cons r rest =>
      rw [chunkRuns_cons, List.flatten_cons]
      have hlen : (rest.dropWhile (fun x => key x = key r)).length ≤ n := by
        have h1 : (rest.dropWhile (fun x => key x = key r)).length ≤ rest.length :=
          (List.dropWhile_sublist _).length_le
        simp only [List.length_cons] at hl
        omega
      rw [ih _ hlen, List.cons_append, List.takeWhile_append_dropWhile]

lemma chunkRuns_join {α κ : Type} [DecidableEq κ] (key : α → κ) (l : List α) :
    (chunkRuns key l).flatten = l :=
  chunkRuns_join_aux key l.length l (Nat.le_refl _)

lemma mem_of_mem_chunkRuns {α κ : Type} [DecidableEq κ] {key : α → κ}
    {l : List α} {run : List α} {x : α} (hrun : run ∈ chunkRuns key l)
    (hx : x ∈ run) : x ∈ l := by
  rw [← chunkRuns_join key l]
  exact List.mem_flatten.mpr ⟨run, hrun, hx⟩

lemma chunkRuns_run_shape {α κ : Type} [DecidableEq κ] (key : α → κ) :
    ∀ (n : Nat) (l : List α), l.length ≤ n →
      ∀ run ∈ chunkRuns key l, ∃ h t, run = h :: t ∧ ∀ x ∈ run, key x = key h := by
  intro n
  induction n with
  | zero =>
    intro l hl
    have h0 : l = [] := List.length_eq_zero.mp (Nat.le_zero.mp hl)
    subst h0
    rw [chunkRuns_nil]
    intro run hrun
    simp at hrun
  | succ n ih =>
    intro l hl
    cases l with
    | nil => rw [chunkRuns_nil]; intro run hrun; simp at hrun
    | cons r rest =>
      rw [chunkRuns_cons]
      intro run hrun
      rcases List.mem_cons.mp hrun with hhead | htail
      · refine ⟨r, rest.takeWhile (fun x => key x = key r), hhead, ?_⟩
        intro x hx
        rw [hhead] at hx
        rcases List.mem_cons.mp hx with hxr | hxt
        · rw [hxr]
        · have hb := List.mem_takeWhile_imp hxt
          exact of_decide_eq_true hb
      · have hlen : (rest.dropWhile (fun x => key x = key r)).length ≤ n := by
          have h1 : (rest.dropWhile (fun x => key x = key r)).length ≤ rest.length :=
            (List.dropWhile_sublist _).length_le
          simp only [List.length_cons] at hl
          omega
        exact ih _ hlen run htail

lemma chunkRuns_left_run {α κ : Type} [DecidableEq κ] (key : α → κ) (kv : κ)
    (xs rest : List α) (hne : xs ≠ []) (hall : ∀ a ∈ xs, key a = kv)
    (hr : ∀ x, rest.head? = some x → key x ≠ kv) :
    chunkRuns key (xs ++ rest) = xs :: chunkRuns key rest := by
  cases xs with
  | nil => exact absurd rfl hne
  | cons x t =>
    rw [List.cons_append, chunkRuns_cons]
    have hx : key x = kv := hall x (List.mem_cons_self x t)
    have ht : ∀ y ∈ t, (fun z => decide (key z = key x)) y = true := by
      intro y hy
      have : key y = kv := hall y (List.mem_cons_of_mem x hy)
      simp [this, hx]
    have hrest : ∀ y, rest.head? = some y →
        (fun z => decide (key z = key x)) y = false := by
      intro y hy
      have := hr y hy
      simp [hx, this]
    rw [takeWhile_append_boundary ht hrest, dropWhile_append_boundary ht hrest]

lemma chunkRuns_append_sep_aux {α κ : Type} [DecidableEq κ] (key : α → κ)
    (zs : List α) :
    ∀ (n : Nat) (ys : List α), ys.length ≤ n →
      (∀ a ∈ ys, ∀ b ∈ zs, key a ≠ key b) →
      chunkRuns key (ys ++ zs) = chunkRuns key ys ++ chunkRuns key zs := by
  intro n
  induction n with
  | zero =>
    intro ys hl _
    have h0 : ys = [] := List.length_eq_zero.mp (Nat.le_zero.mp hl)
    subst h0
    rw [chunkRuns_nil]
    rfl
  | succ n ih =>
    intro ys hl hsep
    cases ys with
    | nil => rw [chunkRuns_nil]; rfl
    | cons r t =>
      rw [List.cons_append, chunkRuns_cons, chunkRuns_cons]
      have hz : ∀ b ∈ zs, (fun z => decide (key z = key r)) b = false := by
        intro b hb
        have : key r ≠ key b := hsep r (List.mem_cons_self r t) b hb
        simp
        exact fun hbk => this hbk.symm
      rw [takeWhile_append_all_neg hz, dropWhile_append_all_neg hz]
      have hlen : (t.dropWhile (fun x => key x = key r)).length ≤ n := by
        have h1 : (t.dropWhile (fun x => key x = key r)).length ≤ t.length :=
          (List.dropWhile_sublist _).length_le
        simp only [List.length_cons] at hl
        omega
      have hsub : ∀ a ∈ t.dropWhile (fun x => key x = key r), ∀ b ∈ zs,
          key a ≠ key b := by
        intro a ha b hb
        have hat : a ∈ t := (List.dropWhile_sublist _).mem ha
        exact hsep a (List.mem_cons_of_mem r hat) b hb
      rw [ih _ hlen hsub, List.cons_append]

lemma chunkRuns_append_sep {α κ : Type} [DecidableEq κ] (key : α → κ)
    (ys zs : List α) (hsep : ∀ a ∈ ys, ∀ b ∈ zs, key a ≠ key b) :
    chunkRuns key (ys ++ zs) = chunkRuns key ys ++ chunkRuns key zs :=
  chunkRuns_append_sep_aux key zs ys.length ys (Nat.le_refl _) hsep

lemma chunkRuns_all_same {α κ : Type} [DecidableEq κ] (key : α → κ) (kv : κ)
    (xs : List α) (hne : xs ≠ []) (hall : ∀ a ∈ xs, key a = kv) :
    chunkRuns key xs = [xs] := by
  have h := chunkRuns_left_run key kv xs [] hne hall (by intro x hx; simp at hx)
  rw [List.append_nil] at h
  rw [h, chunkRuns_nil]

lemma getLast?_getD_cons {α : Type} (r : α) (l : List α) (d : α) :
    ((r :: l).getLast?).getD d = (l.getLast?).getD r := by
  rw [← List.getLastD_eq_getLast?, ← List.getLastD_eq_getLast?, List.getLastD_cons]

lemma extractIterGo_spec (c : String) (rows : List Row) :
    ∀ (k : Option TableKey) (last : Row) (cols : List ColumnMetadata),
      (∀ r ∈ rows, WF r = true) → WF last = true →
      get_table_key last = some k →
      extractIterGo c k last cols rows =
        (runEntityFrom c last cols
            (rows.takeWhile (fun x => specKey x = specKey last)) ::
          (chunkRuns specKey
              (rows.dropWhile (fun x => specKey x = specKey last))).map
            (runEntity c),
         false) := by
  induction rows with
  | nil =>
    intro k last cols _ hlast _
    rw [List.takeWhile_nil, List.dropWhile_nil, chunkRuns_nil]
    simp [extractIterGo, mkEntity_of_WF c cols hlast, runEntityFrom]
  | cons r rest ih =>
    intro k last cols hwf hlast hk
    have hr : WF r = true := hwf r (List.mem_cons_self r rest)
    have hrest : ∀ x ∈ rest, WF x = true :=
      fun x hx => hwf x (List.mem_cons_of_mem r hx)
    have hkr := get_table_key_of_WF hr
    have hkl := get_table_key_of_WF hlast
    have hkk : k = some ⟨sget last "schema", sget last "name"⟩ := by
      rw [hkl] at hk
      injection hk with h
      exact h.symm
    subst hkk
    simp only [extractIterGo, hkr]
    by_cases hspec : specKey r = specKey last
    · obtain ⟨hs, hn⟩ := (specKey_eq_iff_fields hr hlast).mp hspec
      rw [if_pos (by rw [hs, hn])]
      simp only [mkColumn_of_WF hr]
      have hk' : get_table_key r =
          some (some ⟨sget last "schema", sget last "name"⟩) := by
        rw [hkr, hs, hn]
      rw [ih (some ⟨sget last "schema", sget last "name"⟩) r (cols ++ [colOf r])
        hrest hr hk']
      rw [List.takeWhile_cons_of_pos (by simp [hspec]),
        List.dropWhile_cons_of_pos (by simp [hspec])]
      simp only [hspec]
      simp [runEntityFrom, getLast?_getD_cons]
    · have hcond : ¬ ((some ⟨sget r "schema", sget r "name"⟩ : Option TableKey) =
          some ⟨sget last "schema", sget last "name"⟩) := by
        intro he
        simp only [Option.some.injEq, TableKey.mk.injEq] at he
        exact hspec ((specKey_eq_iff_fields hr hlast).mpr he)
      rw [if_neg hcond]
      simp only [mkEntity_of_WF c cols hlast, mkColumn_of_WF hr]
      rw [ih (some ⟨sget r "schema", sget r "name"⟩) r [colOf r] hrest hr hkr]
      rw [List.takeWhile_cons_of_neg (by simp [hspec]),
        List.dropWhile_cons_of_neg (by simp [hspec])]
      rw [chunkRuns_cons]
      simp [runEntityFrom, runEntity, getLast?_getD_cons]

lemma get_extract_iter_spec (c : String) (rows : List Row)
    (hwf : ∀ r ∈ rows, WF r = true) :
    get_extract_iter c rows =
      ((chunkRuns specKey rows).map (runEntity c), false) := by
  cases rows with
  | nil => rw [chunkRuns_nil]; rfl
  | cons r rest =>
    have hr : WF r = true := hwf r (List.mem_cons_self r rest)
    have hrest : ∀ x ∈ rest, WF x = true :=
      fun x hx => hwf x (List.mem_cons_of_mem r hx)
    have hkr := get_table_key_of_WF hr
    simp only [get_extract_iter, hkr, mkColumn_of_WF hr]
    rw [extractIterGo_spec c rest (some ⟨sget r "schema", sget r "name"⟩) r
      [colOf r] hrest hr hkr]
    rw [chunkRuns_cons]
    simp [runEntityFrom, runEntity, getLast?_getD_cons]

lemma mkEntity_shape {c : String} {last : Row} {cols : List ColumnMetadata}
    {e : TableMetadata} (h : mkEntity c last cols = some e) :
    e.database = "druid" ∧ e.cluster = c ∧ e.description = "" ∧
    e.columns = cols := by
  revert h
  simp only [mkEntity]
  cases lookup last "schema" with
  | none => intro h; cases h
  | some s =>
    cases lookup last "name" with
    | none => intro h; cases h
    | some n =>
      intro h
      injection h with h
      rw [← h]
      exact ⟨rfl, rfl, rfl, rfl⟩

lemma mkColumn_shape {r : Row} {col : ColumnMetadata}
    (h : mkColumn r = some col) : col.description = "" := by
  revert h
  simp only [mkColumn]
  cases lookup r "col_name" with
  | none => intro h; cases h
  | some a =>
    cases lookup r "col_type" with
    | none => intro h; cases h
    | some b =>
      cases lookup r "col_sort_order" with
      | none => intro h; cases h
      | some d =>
        intro h
        injection h with h
        rw [← h]

lemma extractIterGo_fields (c : String) (rows : List Row) :
    ∀ (k : Option TableKey) (last : Row) (cols : List ColumnMetadata),
      (∀ col ∈ cols, col.description = "") →
      ∀ t ∈ (extractIterGo c k last cols rows).fst,
        t.database = "druid" ∧ t.cluster = c ∧ t.description = "" ∧
        ∀ col ∈ t.columns, col.description = "" := by
  induction rows with
  | nil =>
    intro k last cols hcols t ht
    simp only [extractIterGo] at ht
    cases hm : mkEntity c last cols with
    | none => rw [hm] at ht; simp at ht
    | some e =>
      rw [hm] at ht
      simp at ht
      subst ht
      obtain ⟨h1, h2, h3, h4⟩ := mkEntity_shape hm
      exact ⟨h1, h2, h3, h4 ▸ hcols⟩
  | cons r rest ih =>
    intro k last cols hcols t ht
    simp only [extractIterGo] at ht
    cases hg : get_table_key r with
    | none => rw [hg] at ht; simp at ht
    | some k' =>
      rw [hg] at ht
      simp only [] at ht
      by_cases hkk : k' = k
      · rw [if_pos hkk] at ht
        cases hm : mkColumn r with
        | none => rw [hm] at ht; simp at ht
        | some col =>
          rw [hm] at ht
          simp only [] at ht
          refine ih k r (cols ++ [col]) ?_ t ht
          intro x hx
          rcases List.mem_append.mp hx with h1 | h2
          · exact hcols x h1
          · rw [List.mem_singleton.mp h2]
            exact mkColumn_shape hm
      · rw [if_neg hkk] at ht
        cases hm : mkEntity c last cols with
        | none => rw [hm] at ht; simp at ht
        | some e =>
          rw [hm] at ht
          simp only [] at ht
          cases hm2 : mkColumn r with
          | none =>
            rw [hm2] at ht
            simp at ht
            subst ht
            obtain ⟨h1, h2, h3, h4⟩ := mkEntity_shape hm
            exact ⟨h1, h2, h3, h4 ▸ hcols⟩
          | some col =>
            rw [hm2] at ht
            simp at ht
            rcases ht with ht | ht
            · subst ht
              obtain ⟨h1, h2, h3, h4⟩ := mkEntity_shape hm
              exact ⟨h1, h2, h3, h4 ▸ hcols⟩
            · refine ih k' r [col] ?_ t ht
              intro x hx
              rw [List.mem_singleton.mp hx]
              exact mkColumn_shape hm2

lemma get_extract_iter_fields (c : String) (rows : List Row) :
    ∀ t ∈ (get_extract_iter c rows).fst,
      t.database = "druid" ∧ t.cluster = c ∧ t.description = "" ∧
      ∀ col ∈ t.columns, col.description = "" := by
  intro t ht
  cases rows with
  | nil => simp [get_extract_iter] at ht
  | cons r rest =>
    simp only [get_extract_iter] at ht
    cases hg : get_table_key r with
    | none => rw [hg] at ht; simp at ht
    | some k =>
      rw [hg] at ht
      cases hm : mkColumn r with
      | none => rw [hm] at ht; simp at ht
      | some col =>
        rw [hm] at ht
        simp only [] at ht
        refine extractIterGo_fields c rest k r [col] ?_ t ht
        intro x hx
        rw [List.mem_singleton.mp hx]
        exact mkColumn_shape hm

lemma extractIterGo_snd_true (c : String) (rows : List Row) :
    ∀ (k : Option TableKey) (last : Row) (cols : List ColumnMetadata),
      (∃ r ∈ rows, WF r = false) →
      (extractIterGo c k last cols rows).snd = true := by
  induction rows with
  | nil =>
    intro k last cols h
    rcases h with ⟨r, hr, -⟩
    simp at hr
  | cons r rest ih =>
    intro k last cols h
    simp only [extractIterGo]
    cases hWFr : WF r with
    | true =>
      have hrest : ∃ x ∈ rest, WF x = false := by
        rcases h with ⟨x, hx, hxf⟩
        rcases List.mem_cons.mp hx with h1 | h2
        · rw [h1, hWFr] at hxf; cases hxf
        · exact ⟨x, h2, hxf⟩
      rw [get_table_key_of_WF hWFr, mkColumn_of_WF hWFr]
      simp only []
      by_cases hkk : (some ⟨sget r "schema", sget r "name"⟩ : Option TableKey) = k
      · rw [if_pos hkk]
        exact ih k r (cols ++ [colOf r]) hrest
      · rw [if_neg hkk]
        cases hm : mkEntity c last cols with
        | none => rfl
        | some e =>
          simp only []
          exact ih (some ⟨sget r "schema", sget r "name"⟩) r [colOf r] hrest
    | false =>
      cases hg : get_table_key r with
      | none => rfl
      | some k' =>
        rcases WF_false_cases hWFr with hgn | hmn
        · rw [hgn] at hg; cases hg
        · rw [hmn]
          simp only []
          by_cases hkk : k' = k
          · rw [if_pos hkk]
          · rw [if_neg hkk]
            cases hm : mkEntity c last cols with
            | none => rfl
            | some e => rfl

lemma get_extract_iter_snd_true (c : String) (rows : List Row)
    (h : ∃ r ∈ rows, WF r = false) :
    (get_extract_iter c rows).snd = true := by
  cases rows with
  | nil => rcases h with ⟨r, hr, -⟩; simp at hr
  | cons r rest =>
    simp only [get_extract_iter]
    cases hWFr : WF r with
    | true =>
      have hrest : ∃ x ∈ rest, WF x = false := by
        rcases h with ⟨x, hx, hxf⟩
        rcases List.mem_cons.mp hx with h1 | h2
        · rw [h1, hWFr] at hxf; cases hxf
        · exact ⟨x, h2, hxf⟩
      rw [get_table_key_of_WF hWFr, mkColumn_of_WF hWFr]
      simp only []
      exact extractIterGo_snd_true c rest
        (some ⟨sget r "schema", sget r "name"⟩) r [colOf r] hrest
    | false =>
      cases hg : get_table_key r with
      | none => rfl
      | some k' =>
        rcases WF_false_cases hWFr with hgn | hmn
        · rw [hgn] at hg; cases hg
        · rw [hmn]

/-! ### Claim theorems -/

/-- C9: for every configured where-clause suffix, the SQL statement produced at
initialization is the fixed template with the suffix interpolated verbatim
after the `FROM` clause and before the `order by` clause; the rest of the
template does not depend on the suffix. -/
theorem druid_sql_suffix_position (sfx : String) :
    SQL_STATEMENT sfx = sqlHead ++ sfx ++ sqlTail ∧
    sqlHead =
      "\nSELECT\nTABLE_SCHEMA as schema,\nTABLE_NAME as name,\nCOLUMN_NAME as col_name,\nDATA_TYPE as col_type,\nORDINAL_POSITION as col_sort_order\n" ++
        "FROM INFORMATION_SCHEMA.COLUMNS\n" ∧
    sqlTail =
      "\norder by TABLE_SCHEMA, TABLE_NAME, CAST(ORDINAL_POSITION AS int)" ++
        "\n" :=
  ⟨rfl, rfl, rfl⟩

/-- C4: every emitted entity has database `"druid"` and empty description, and
every column of every emitted entity has empty description — for all inputs
(no well-formedness assumption) and all cluster configurations. -/
theorem druid_constant_fields (c : String) (rows : List Row) :
    ∀ t ∈ (get_extract_iter c rows).fst,
      t.database = "druid" ∧ t.description = "" ∧
      ∀ col ∈ t.columns, col.description = "" := by
  intro t ht
  obtain ⟨h1, -, h3, h4⟩ := get_extract_iter_fields c rows t ht
  exact ⟨h1, h3, h4⟩

/-- C6: when the row source produces no rows, the first `extract()` call (on a
fresh state, iterator not yet constructed) returns the `None` sentinel and the
grouping generator yields no entity at all. -/
theorem druid_empty_input_sentinel (s : DruidState)
    (h1 : s.extract_iter = none) (h2 : get_raw_extract_iter s.results = []) :
    (extract s).fst = ExtractResult.value none ∧
    (get_extract_iter s.cluster (get_raw_extract_iter s.results)).fst = [] := by
  constructor
  · simp [extract, h1, h2, get_extract_iter]
  · rw [h2]
    rfl

/-- C10: the raw row stream stops at the first falsy value returned by the
underlying extractor (`None` or an empty dict): the yielded rows are exactly
the truthy prefix, and nothing after the falsy value is ever consumed (the
result does not depend on `post`). -/
theorem druid_raw_iter_stops_at_falsy (pre : List (Option Row))
    (f : Option Row) (post : List (Option Row))
    (hpre : ∀ x ∈ pre, ∃ row, x = some row ∧ row.isEmpty = false)
    (hf : f = none ∨ f = some []) :
    get_raw_extract_iter (pre ++ f :: post) = pre.filterMap id ∧
    get_raw_extract_iter (pre ++ f :: post) = get_raw_extract_iter pre := by
  induction pre with
  | nil =>
    constructor
    · rcases hf with hf | hf <;> rw [hf] <;> rfl
    · rcases hf with hf | hf <;> rw [hf] <;> rfl
  | cons x t ih =>
    obtain ⟨row, hx, hrow⟩ := hpre x (List.mem_cons_self x t)
    have ht : ∀ y ∈ t, ∃ r, y = some r ∧ r.isEmpty = false :=
      fun y hy => hpre y (List.mem_cons_of_mem x hy)
    obtain ⟨ih1, ih2⟩ := ih ht
    subst hx
    constructor
    · rw [List.cons_append]
      simp [get_raw_extract_iter, hrow, ih1]
    · rw [List.cons_append]
      simp [get_raw_extract_iter, hrow, ih2]

/-- C7: if any raw row lacks one of the five expected fields, the generator
run ends by raising the lookup failure (it is not recovered locally), and once
the entities yielded before the failure are consumed, the facade `extract()`
propagates the exception instead of returning a value: only `StopIteration`
is caught. -/
theorem druid_missing_field_raises (c : String) (rows : List Row)
    (h : ∃ r ∈ rows, WF r = false) :
    (get_extract_iter c rows).snd = true ∧
    ∀ s : DruidState,
      s.extract_iter = some ([], (get_extract_iter c rows).snd) →
      (extract s).fst = ExtractResult.raised := by
  have hsnd := get_extract_iter_snd_true c rows h
  refine ⟨hsnd, ?_⟩
  intro s hs
  rw [hsnd] at hs
  simp [extract, hs]

/-- C8: configuration uses fallback-merge semantics: a caller-supplied
`cluster` value wins, otherwise the default `"gold"` is used; a caller-supplied
`where_clause_suffix` is interpolated into the SQL statement, otherwise the
default `" "` (whitespace); and the resolved cluster label is stamped onto
every emitted entity. -/
theorem druid_config_fallback (conf : Config) (rows : List Row) (c : String)
    (hc : init_cluster conf = some c) :
    (∀ v, conf "cluster" = some v → c = v) ∧
    (conf "cluster" = none → c = "gold") ∧
    (∀ w, conf "where_clause_suffix" = some w →
      init_sql_stmt conf = SQL_STATEMENT w) ∧
    (conf "where_clause_suffix" = none →
      init_sql_stmt conf = SQL_STATEMENT " ") ∧
    ∀ t ∈ (get_extract_iter c rows).fst, t.cluster = c := by
  refine ⟨?_, ?_, ?_, ?_, ?_⟩
  · intro v hv
    rw [init_cluster, with_fallback, hv] at hc
    simp [Option.orElse] at hc
    exact hc.symm
  · intro hv
    rw [init_cluster, with_fallback, hv] at hc
    simp [Option.orElse] at hc
    have : DEFAULT_CONFIG "cluster" = some "gold" := rfl
    rw [this] at hc
    injection hc with h
    exact h.symm
  · intro w hw
    rw [init_sql_stmt, with_fallback, hw]
    simp [Option.orElse]
  · intro hw
    rw [init_sql_stmt, with_fallback, hw]
    have : DEFAULT_CONFIG "where_clause_suffix" = some " " := rfl
    simp [Option.orElse, this]
  · intro t ht
    exact (get_extract_iter_fields c rows t ht).2.1

/-- C3: once `extract()` has returned the `None` sentinel, the state is a
fixpoint: every subsequent call returns the sentinel again and leaves the
state unchanged — the iterator is never reconstructed (`self._extract_iter`
stays set) and no entity is re-emitted. -/
theorem druid_extract_sentinel_stable (s : DruidState)
    (h : (extract s).fst = ExtractResult.value none) :
    extract (extract s).snd = (ExtractResult.value none, (extract s).snd) := by
  cases hsi : s.extract_iter with
  | none =>
    rcases hge : get_extract_iter s.cluster (get_raw_extract_iter s.results)
      with ⟨ts, e⟩
    cases ts with
    | nil =>
      cases e with
      | false => simp [extract, hsi, hge]
      | true => simp [extract, hsi, hge] at h
    | cons t ts' => simp [extract, hsi, hge] at h
  | some itpair =>
    rcases itpair with ⟨ts, e⟩
    cases ts with
    | nil =>
      cases e with
      | false => simp [extract, hsi]
      | true => simp [extract, hsi] at h
    | cons t ts' => simp [extract, hsi] at h

/-- C1: for non-empty well-formed row sequences, the number of entities
yielded equals the number of maximal contiguous `(schema, table_name)` key
runs, the run terminates normally, and the entities correspond to the runs in
order, each carrying its run's shared schema and name. -/
theorem druid_entity_count_eq_runs (c : String) (rows : List Row)
    (hne : rows ≠ []) (hwf : ∀ r ∈ rows, WF r = true) :
    (get_extract_iter c rows).fst.length = countRuns (rows.map specKey) ∧
    (get_extract_iter c rows).snd = false ∧
    List.Forall₂ (fun run t => ∀ r ∈ run, specKey r = some (t.schema, t.name))
      (chunkRuns specKey rows) (get_extract_iter c rows).fst := by
  rw [get_extract_iter_spec c rows hwf]
  refine ⟨?_, rfl, ?_⟩
  · simp [chunkRuns_length]
  · simp only []
    rw [List.forall₂_map_right_iff, List.forall₂_same]
    intro run hrun r hr
    obtain ⟨hd, tl, hshape, hkey⟩ :=
      chunkRuns_run_shape specKey rows.length rows (Nat.le_refl _) run hrun
    have hne' : run ≠ [] := by rw [hshape]; simp
    have hlastmem : run.getLastD [] ∈ run := getLastD_mem [] hne'
    have hWFl : WF (run.getLastD []) = true :=
      hwf _ (mem_of_mem_chunkRuns hrun hlastmem)
    have h1 : specKey r = specKey (run.getLastD []) := by
      rw [hkey r hr, hkey _ hlastmem]
    rw [h1, specKey_of_WF hWFl]
    simp [runEntity]

/-- C2: the entities correspond one-to-one and in order to the contiguous key
runs, and each entity's column list has exactly one column per row of its run,
in the same relative order, carrying that row's `col_name`, `col_type` and
`col_sort_order`. -/
theorem druid_columns_match_rows (c : String) (rows : List Row)
    (hwf : ∀ r ∈ rows, WF r = true) :
    List.Forall₂ (fun run t =>
        t.columns.length = run.length ∧
        ∀ i (hi : i < run.length) (hj : i < t.columns.length),
          lookup run[i] "col_name" = some (t.columns[i].name) ∧
          lookup run[i] "col_type" = some (t.columns[i].col_type) ∧
          lookup run[i] "col_sort_order" = some (t.columns[i].sort_order))
      (chunkRuns specKey rows) (get_extract_iter c rows).fst := by
  rw [get_extract_iter_spec c rows hwf]
  simp only []
  rw [List.forall₂_map_right_iff, List.forall₂_same]
  intro run hrun
  constructor
  · simp [runEntity]
  · intro i hi hj
    have hmem : run[i] ∈ run := List.getElem_mem _
    have hWFi : WF run[i] = true := hwf _ (mem_of_mem_chunkRuns hrun hmem)
    obtain ⟨-, -, h3, h4, h5⟩ := WF_fields hWFi
    simp [runEntity, List.getElem_map, colOf, lookup_eq_sget h3,
      lookup_eq_sget h4, lookup_eq_sget h5]

/-- C5: when rows sharing one key appear in two non-adjacent contiguous runs
separated by rows of other keys (the sort precondition violated), each
contiguous sub-run yields its own entity: the output has one entity per
contiguous run — two of them (the first and the last) carrying the duplicated
key — and the non-adjacent runs are never merged into one entity. -/
theorem druid_no_merge_nonadjacent (c : String) (k : String × String)
    (xs ys zs : List Row) (hx : xs ≠ []) (hy : ys ≠ []) (hz : zs ≠ [])
    (hwf : ∀ r ∈ xs ++ ys ++ zs, WF r = true)
    (hxk : ∀ r ∈ xs, specKey r = some k)
    (hyk : ∀ r ∈ ys, specKey r ≠ some k)
    (hzk : ∀ r ∈ zs, specKey r = some k) :
    (get_extract_iter c (xs ++ ys ++ zs)).snd = false ∧
    (get_extract_iter c (xs ++ ys ++ zs)).fst.length =
      2 + countRuns (ys.map specKey) ∧
    ∃ t1 t2 : TableMetadata,
      (get_extract_iter c (xs ++ ys ++ zs)).fst.head? = some t1 ∧
      (get_extract_iter c (xs ++ ys ++ zs)).fst.getLast? = some t2 ∧
      t1.schema = k.fst ∧ t1.name = k.snd ∧
      t2.schema = k.fst ∧ t2.name = k.snd := by
  have hhead : ∀ x, (ys ++ zs).head? = some x → specKey x ≠ some k := by
    intro x hx'
    cases ys with
    | nil => exact absurd rfl hy
    | cons a t =>
      rw [List.cons_append, List.head?_cons] at hx'
      injection hx' with h
      rw [← h]
      exact hyk a (List.mem_cons_self a t)
  have hsep : ∀ a ∈ ys, ∀ b ∈ zs, specKey a ≠ specKey b := by
    intro a ha b hb
    rw [hzk b hb]
    exact hyk a ha
  have hchunk : chunkRuns specKey (xs ++ ys ++ zs) =
      xs :: (chunkRuns specKey ys ++ [zs]) := by
    rw [List.append_assoc,
      chunkRuns_left_run specKey (some k) xs (ys ++ zs) hx hxk hhead,
      chunkRuns_append_sep specKey ys zs hsep,
      chunkRuns_all_same specKey (some k) zs hz hzk]
  have hmaster := get_extract_iter_spec c (xs ++ ys ++ zs) hwf
  rw [hchunk] at hmaster
  rw [hmaster]
  have hxlast : xs.getLastD [] ∈ xs := getLastD_mem [] hx
  have hzlast : zs.getLastD [] ∈ zs := getLastD_mem [] hz
  have hxmem : xs.getLastD [] ∈ xs ++ ys ++ zs := by
    rw [List.append_assoc]
    exact List.mem_append.mpr (Or.inl hxlast)
  have hzmem : zs.getLastD [] ∈ xs ++ ys ++ zs := by
    rw [List.append_assoc]
    exact List.mem_append.mpr (Or.inr (List.mem_append.mpr (Or.inr hzlast)))
  have hWFx : WF (xs.getLastD []) = true := hwf _ hxmem
  have hWFz : WF (zs.getLastD []) = true := hwf _ hzmem
  have hkx : (sget (xs.getLastD []) "schema", sget (xs.getLastD []) "name") =
      k := by
    have h1 := specKey_of_WF hWFx
    rw [hxk _ hxlast] at h1
    exact Option.some_inj.mp h1.symm
  have hkz : (sget (zs.getLastD []) "schema", sget (zs.getLastD []) "name") =
      k := by
    have h1 := specKey_of_WF hWFz
    rw [hzk _ hzlast] at h1
    exact Option.some_inj.mp h1.symm
  refine ⟨rfl, ?_, ?_⟩
  · simp [chunkRuns_length]
    omega
  · refine ⟨runEntity c xs, runEntity c zs, ?_, ?_, ?_, ?_, ?_, ?_⟩
    · simp
    · have : (runEntity c xs :: (chunkRuns specKey ys ++ [zs]).map
          (runEntity c)) = (runEntity c xs :: (chunkRuns specKey ys).map
          (runEntity c)) ++ [runEntity c zs] := by
        simp
      simp only []
      rw [List.map_cons, this, List.getLast?_concat]
    · rw [runEntity]
      exact congrArg Prod.fst hkx
    · rw [runEntity]
      exact congrArg Prod.snd hkx
    · rw [runEntity]
      exact congrArg Prod.fst hkz
    · rw [runEntity]
      exact congrArg Prod.snd hkz

/-! ### Witnesses: the claim theorems applied at concrete inputs -/

/-- Witness for C1 at the spec's three-row scenario. -/
theorem druid_entity_count_eq_runs_witness :
    (get_extract_iter "gold" sampleRows).fst.length =
      countRuns (sampleRows.map specKey) ∧
    (get_extract_iter "gold" sampleRows).snd = false ∧
    List.Forall₂ (fun run t => ∀ r ∈ run, specKey r = some (t.schema, t.name))
      (chunkRuns specKey sampleRows) (get_extract_iter "gold" sampleRows).fst :=
  druid_entity_count_eq_runs "gold" sampleRows (by decide) (by decide)

/-- Witness for C2 at the spec's three-row scenario. -/
theorem druid_columns_match_rows_witness :
    List.Forall₂ (fun run t =>
        t.columns.length = run.length ∧
        ∀ i (hi : i < run.length) (hj : i < t.columns.length),
          lookup run[i] "col_name" = some (t.columns[i].name) ∧
          lookup run[i] "col_type" = some (t.columns[i].col_type) ∧
          lookup run[i] "col_sort_order" = some (t.columns[i].sort_order))
      (chunkRuns specKey sampleRows)
      (get_extract_iter "gold" sampleRows).fst :=
  druid_columns_match_rows "gold" sampleRows (by decide)

/-- Witness for C3 on a fresh state over an empty stream. -/
theorem druid_extract_sentinel_stable_witness :
    extract (extract ⟨"gold", [], none⟩).snd =
      (ExtractResult.value none, (extract ⟨"gold", [], none⟩).snd) :=
  druid_extract_sentinel_stable ⟨"gold", [], none⟩ (by decide)

/-- Witness for C4 at the first entity emitted on the sample rows. -/
theorem druid_constant_fields_witness :
    tEntity1.database = "druid" ∧ tEntity1.description = "" ∧
    ∀ col ∈ tEntity1.columns, col.description = "" :=
  druid_constant_fields "gold" sampleRows tEntity1 (by decide)

/-- Witness for C5: the `(s1, t1)` key split by a `(s1, t2)` row. -/
theorem druid_no_merge_nonadjacent_witness :
    (get_extract_iter "gold"
      ([row_s1_t1_a] ++ [row_s1_t2_c] ++ [row_s1_t1_b])).snd = false ∧
    (get_extract_iter "gold"
      ([row_s1_t1_a] ++ [row_s1_t2_c] ++ [row_s1_t1_b])).fst.length =
      2 + countRuns ([row_s1_t2_c].map specKey) ∧
    ∃ t1 t2 : TableMetadata,
      (get_extract_iter "gold"
        ([row_s1_t1_a] ++ [row_s1_t2_c] ++ [row_s1_t1_b])).fst.head? =
        some t1 ∧
      (get_extract_iter "gold"
        ([row_s1_t1_a] ++ [row_s1_t2_c] ++ [row_s1_t1_b])).fst.getLast? =
        some t2 ∧
      t1.schema = ("s1", "t1").fst ∧ t1.name = ("s1", "t1").snd ∧
      t2.schema = ("s1", "t1").fst ∧ t2.name = ("s1", "t1").snd :=
  druid_no_merge_nonadjacent "gold" ("s1", "t1")
    [row_s1_t1_a] [row_s1_t2_c] [row_s1_t1_b]
    (by decide) (by decide) (by decide) (by decide) (by decide) (by decide)
    (by decide)

/-- Witness for C6 on a fresh state over an empty stream. -/
theorem druid_empty_input_sentinel_witness :
    (extract ⟨"gold", [], none⟩).fst = ExtractResult.value none ∧
    (get_extract_iter "gold" (get_raw_extract_iter [])).fst = [] :=
  druid_empty_input_sentinel ⟨"gold", [], none⟩ rfl rfl

/-- Witness for C7 at a row missing `col_sort_order`. -/
theorem druid_missing_field_raises_witness :
    (get_extract_iter "gold" [badRow]).snd = true ∧
    ∀ s : DruidState,
      s.extract_iter = some ([], (get_extract_iter "gold" [badRow]).snd) →
      (extract s).fst = ExtractResult.raised :=
  druid_missing_field_raises "gold" [badRow] (by decide)

/-- Witness for C8 with a caller-supplied cluster value. -/
theorem druid_config_fallback_witness :
    (∀ v, sampleConf "cluster" = some v → "prod" = v) ∧
    (sampleConf "cluster" = none → "prod" = "gold") ∧
    (∀ w, sampleConf "where_clause_suffix" = some w →
      init_sql_stmt sampleConf = SQL_STATEMENT w) ∧
    (sampleConf "where_clause_suffix" = none →
      init_sql_stmt sampleConf = SQL_STATEMENT " ") ∧
    ∀ t ∈ (get_extract_iter "prod" sampleRows).fst, t.cluster = "prod" :=
  druid_config_fallback sampleConf sampleRows "prod" (by decide)

/-- Witness for C10: a truthy row, then `None`, then an unread row. -/
theorem druid_raw_iter_stops_at_falsy_witness :
    get_raw_extract_iter
        ([some row_s1_t1_a] ++ none :: [some row_s1_t1_b]) =
      [some row_s1_t1_a].filterMap id ∧
    get_raw_extract_iter
        ([some row_s1_t1_a] ++ none :: [some row_s1_t1_b]) =
      get_raw_extract_iter [some row_s1_t1_a] :=
  druid_raw_iter_stops_at_falsy [some row_s1_t1_a] none [some row_s1_t1_b]
    (by
      intro x hx
      rw [List.mem_singleton.mp hx]
      exact ⟨row_s1_t1_a, rfl, rfl⟩)
    (Or.inl rfl)
